import Mathlib

/-!
Shallow embedding of the DistributedLedger node's inventory / consensus
engine (`inventory.mjs`) and of the miner's Merkle-root computation
(`miner.mjs`).

Modelling conventions:
* A JavaScript `Map` is an ordered association list `List (String × α)`;
  `Map.get` reads the first entry with the key, `Map.set` updates the first
  entry in place or appends a fresh key at the end (JS insertion order).
* The `Set` of seen messages is a `List String` queried with `contains`.
* JS numbers on the fields the code touches are `Int`.  JS truthiness on
  those fields: a string is falsy iff empty, a number is falsy iff zero.
  A missing field (`undefined`) is modelled by the falsy value of its type.
* SHA-256 and the canonical JSON serialization are external library calls
  (`crypto.createHash`, `JSON.stringify`): the embedding is parametric over
  them (structure `Hasher`); the source never inspects hash strings beyond
  equality, lexicographic ordering and the `startsWith` difficulty test.
-/

namespace Ledger

/-- JS `Map.get`: value of the first entry with the given key. -/
def mapFind {α : Type} : List (String × α) → String → Option α
  | [], _ => none
  | p :: rest, k => if p.1 = k then some p.2 else mapFind rest k

/-- JS `Map.set`: update the entry with the key in place, else append. -/
def mapSet {α : Type} : List (String × α) → String → α → List (String × α)
  | [], k, v => [(k, v)]
  | p :: rest, k, v => if p.1 = k then (k, v) :: rest else p :: mapSet rest k v

/-- JS `Map.delete`. -/
def mapErase {α : Type} (m : List (String × α)) (k : String) : List (String × α) :=
  m.filter (fun p => p.1 ≠ k)

/-- JS `Map.has`. -/
def mapHasKey {α : Type} (m : List (String × α)) (k : String) : Bool :=
  (mapFind m k).isSome

/-- Sum of all values of a balance map. -/
def mapSumInt (m : List (String × Int)) : Int :=
  (m.map (fun p => p.2)).sum

/-- JS `String.prototype.startsWith`, spelled out on the character list (the
hashes in play are ASCII hex, where this agrees with the JS semantics). -/
def strStarts (s pre : String) : Bool :=
  pre.data.isPrefixOf s.data

/-- JS `<` on strings: lexicographic character comparison, spelled out on
the character list (ASCII hex strings, where JS UTF-16 code-unit order and
codepoint order agree). -/
def charsLt : List Char → List Char → Bool
  | [], [] => false
  | [], _ :: _ => true
  | _ :: _, [] => false
  | a :: as, b :: bs =>
    if a.toNat < b.toNat then true
    else if b.toNat < a.toNat then false
    else charsLt as bs

/-- JS `<` on strings. -/
def strLt (a b : String) : Bool :=
  charsLt a.data b.data

/-- A pending or in-block transaction (`{id, sender, receiver, amount}`;
the timestamp is never read by the verified code paths). -/
structure Tx where
  id : String
  sender : String
  receiver : String
  amount : Int
deriving DecidableEq

/-- A block as stored in the inventory. -/
structure Block where
  isGenesis : Bool
  previousHash : String
  timestamp : String
  nonce : String
  creator : String
  merkleRoot : String
  count : Int
  transactions : List Tx
  hash : String
deriving DecidableEq

/-- The external hashing / serialization collaborators (`crypto`,
`JSON.stringify`).  `serBlockNoHash` is only ever applied to a block whose
`hash` field has been cleared, mirroring the destructuring
`const { hash, ...blockWithoutHash } = block` in the source. -/
structure Hasher where
  sha256 : String → String
  serBlockNoHash : Block → String
  serTx : Tx → String

/-- The mutable fields of `InventoryManager`. -/
structure NodeState where
  blocks : List (String × Block)
  transactions : List (String × Tx)
  seenMessages : List String
  balances : List (String × Int)
  genesisCreated : Bool
  blockchainHead : Option String
  blockHeights : List (String × Int)
deriving DecidableEq

/-- The state built by the `InventoryManager` constructor. -/
def initState : NodeState :=
  { blocks := [], transactions := [], seenMessages := [], balances := [],
    genesisCreated := false, blockchainHead := none, blockHeights := [] }

/-- `block.nonce || "0"` in `calculateBlockHash`. -/
def jsNonce (b : Block) : String := if b.nonce = "" then "0" else b.nonce

/-- `InventoryManager.calculateBlockHash`: SHA-256 of the serialization of
the block without its `hash` field, concatenated with the nonce string. -/
def calculateBlockHash (H : Hasher) (b : Block) : String :=
  H.sha256 (H.serBlockNoHash { b with hash := "" } ++ jsNonce b)

/-- The hash under which `addBlock` stores a block:
`block.hash || calculatedHash` (the declared hash wins when present). -/
def blockIdHash (H : Hasher) (b : Block) : String :=
  if b.hash ≠ "" then b.hash else calculateBlockHash H b

/-- `InventoryManager.validateTransaction`: required fields, strictly
positive amount, and sender balance at least the amount. -/
def validateTransaction (s : NodeState) (tx : Tx) : Bool :=
  if tx.sender = "" ∨ tx.receiver = "" ∨ tx.amount = 0 ∨ tx.amount ≤ 0 then false
  else
    let senderBalance := (mapFind s.balances tx.sender).getD 0
    if senderBalance < tx.amount then false else true

/-- `InventoryManager.addTransaction`. -/
def addTransaction (s : NodeState) (tx : Tx) : Bool × NodeState :=
  if s.seenMessages.contains tx.id then (false, s)
  else if validateTransaction s tx then
    (true,
      { s with transactions := mapSet s.transactions tx.id tx,
               seenMessages := tx.id :: s.seenMessages })
  else (false, s)

/-- `InventoryManager.validateBlockTransactions`, inner loop: simulate the
transactions in order on a shadow copy of the balances. -/
def validateBlockTxsFrom (tempBalances : List (String × Int)) : List Tx → Bool
  | [] => true
  | tx :: rest =>
    if tx.id = "" ∨ tx.sender = "" ∨ tx.receiver = "" ∨ tx.amount = 0 ∨ tx.amount ≤ 0 then
      false
    else
      let senderBalance := (mapFind tempBalances tx.sender).getD 0
      if senderBalance < tx.amount then false
      else
        let t1 := mapSet tempBalances tx.sender (senderBalance - tx.amount)
        let receiverBalance := (mapFind t1 tx.receiver).getD 0
        validateBlockTxsFrom (mapSet t1 tx.receiver (receiverBalance + tx.amount)) rest

/-- `InventoryManager.validateBlockTransactions`. -/
def validateBlockTransactions (s : NodeState) (txs : List Tx) : Bool :=
  validateBlockTxsFrom s.balances txs

/-- `InventoryManager.validateBlockStructure`: the calculated hash must meet
the hard-coded difficulty `'0000'`; an unknown parent is tolerated (orphans
are accepted), and the Merkle root is not re-checked. -/
def validateBlockStructure (s : NodeState) (block : Block) (calculatedHash : String) : Bool :=
  if strStarts calculatedHash "0000" then
    if mapHasKey s.blocks block.previousHash then true else true
  else false

/-- One transaction of `InventoryManager.processBlockTransactions`: debit
the sender, then credit the receiver (the receiver balance is read after
the sender write), and drop the transaction from the pending pool. -/
def processTx (bal : List (String × Int)) (pend : List (String × Tx)) (tx : Tx) :
    List (String × Int) × List (String × Tx) :=
  if tx.sender = "" ∨ tx.receiver = "" ∨ tx.amount = 0 then (bal, pend)
  else
    let senderBalance := (mapFind bal tx.sender).getD 0
    let bal1 := mapSet bal tx.sender (senderBalance - tx.amount)
    let receiverBalance := (mapFind bal1 tx.receiver).getD 0
    let bal2 := mapSet bal1 tx.receiver (receiverBalance + tx.amount)
    let pend1 := if tx.id ≠ "" ∧ mapHasKey pend tx.id then mapErase pend tx.id else pend
    (bal2, pend1)

/-- `InventoryManager.processBlockTransactions` over a transaction list. -/
def processBlockTxs (bal : List (String × Int)) (pend : List (String × Tx))
    (txs : List Tx) : List (String × Int) × List (String × Tx) :=
  txs.foldl (fun acc tx => processTx acc.1 acc.2 tx) (bal, pend)

/-- One transaction of the rollback loop of
`InventoryManager.handleChainReorganization`: both old balances are read
before either write, so the sender write of a self-transfer is lost. -/
def rollbackTx (bal : List (String × Int)) (tx : Tx) : List (String × Int) :=
  if tx.sender ≠ "" ∧ tx.receiver ≠ "" ∧ tx.amount ≠ 0 then
    let senderBalance := (mapFind bal tx.sender).getD 0
    let receiverBalance := (mapFind bal tx.receiver).getD 0
    let bal1 := mapSet bal tx.sender (senderBalance + tx.amount)
    mapSet bal1 tx.receiver (receiverBalance - tx.amount)
  else bal

/-- The rollback loop of `handleChainReorganization`: reverse the balance
effect of every transaction of every listed block.  The pending pool is not
touched. -/
def rollbackBlocks (blocks : List (String × Block)) (bal : List (String × Int))
    (hashes : List String) : List (String × Int) :=
  hashes.foldl
    (fun b h =>
      match mapFind blocks h with
      | some blk => blk.transactions.foldl rollbackTx b
      | none => b)
    bal

/-- The apply loop of `handleChainReorganization`: re-apply the
transactions of every listed block via `processBlockTransactions`. -/
def applyBlocks (blocks : List (String × Block)) (bal : List (String × Int))
    (pend : List (String × Tx)) (hashes : List String) :
    List (String × Int) × List (String × Tx) :=
  hashes.foldl
    (fun acc h =>
      match mapFind blocks h with
      | some blk => processBlockTxs acc.1 acc.2 blk.transactions
      | none => acc)
    (bal, pend)

/-- The walk of `InventoryManager.getChainToBlock`: follow `previousHash`
from the target, prepending each hash, for at most `fuel` (1000) steps,
stopping at genesis, a missing block, or an empty hash. -/
def chainWalk (blocks : List (String × Block)) :
    Nat → String → List String → List String
  | 0, _, acc => acc
  | Nat.succ fuel, cur, acc =>
    if cur = "" then acc
    else
      match mapFind blocks cur with
      | none => acc
      | some b =>
        if b.isGenesis then cur :: acc
        else chainWalk blocks fuel b.previousHash (cur :: acc)

/-- `InventoryManager.getChainToBlock`. -/
def getChainToBlock (s : NodeState) (blockHash : String) : List String :=
  chainWalk s.blocks 1000 blockHash []

/-- Length of the longest common prefix of the two ancestor chains
(`commonAncestorIndex` in `handleChainReorganization`). -/
def commonAncestorIndex : List String → List String → Nat
  | a :: as, b :: bs => if a = b then commonAncestorIndex as bs + 1 else 0
  | _, _ => 0

/-- `InventoryManager.handleChainReorganization`: roll back the abandoned
suffix of the old chain (balances only), then apply the new suffix. -/
def handleChainReorganization (s : NodeState) (oldHead newHead : String) : NodeState :=
  let oldChain := getChainToBlock s oldHead
  let newChain := getChainToBlock s newHead
  let k := commonAncestorIndex oldChain newChain
  let blocksToRollback := (oldChain.drop k).reverse
  let blocksToApply := newChain.drop k
  let bal1 := rollbackBlocks s.blocks s.balances blocksToRollback
  let ap := applyBlocks s.blocks bal1 s.transactions blocksToApply
  { s with balances := ap.1, transactions := ap.2 }

/-- `InventoryManager.applyConsensusRules`: first block wins, else longest
chain wins, else at equal height the lexicographically smaller hash wins
(heights read with the `|| 0` default). -/
def applyConsensusRules (s : NodeState) (newBlockHash : String) : NodeState :=
  match s.blockchainHead with
  | none => { s with blockchainHead := some newBlockHash }
  | some headHash =>
    let currentHeadHeight := (mapFind s.blockHeights headHash).getD 0
    let newBlockHeight := (mapFind s.blockHeights newBlockHash).getD 0
    if currentHeadHeight < newBlockHeight then
      let s1 := handleChainReorganization s headHash newBlockHash
      { s1 with blockchainHead := some newBlockHash }
    else if newBlockHeight = currentHeadHeight ∧ strLt newBlockHash headHash = true then
      let s1 := handleChainReorganization s headHash newBlockHash
      { s1 with blockchainHead := some newBlockHash }
    else s

/-- The genesis branch of `addBlock`: store the block, mark it seen, set
height 0 and the head, and set (overwrite) the creator balance to 100. -/
def genesisAccept (s : NodeState) (block : Block) (blockHash : String) : NodeState :=
  let s1 : NodeState :=
    { s with blocks := mapSet s.blocks blockHash { block with hash := blockHash },
             seenMessages := blockHash :: s.seenMessages,
             genesisCreated := true,
             blockHeights := mapSet s.blockHeights blockHash 0,
             blockchainHead := some blockHash }
  if block.creator ≠ "" then { s1 with balances := mapSet s1.balances block.creator 100 }
  else s1

/-- Storing a regular block: insert under its identity hash, mark seen. -/
def insertBlockStage (s : NodeState) (block : Block) (blockHash : String) : NodeState :=
  { s with blocks := mapSet s.blocks blockHash { block with hash := blockHash },
           seenMessages := blockHash :: s.seenMessages }

/-- `this.blockHeights.get(block.previousHash) || -1`: a missing parent
reads as -1, and so does a parent at height 0 (JS `0` is falsy). -/
def prevHeightJs (s : NodeState) (block : Block) : Int :=
  match mapFind s.blockHeights block.previousHash with
  | none => -1
  | some v => if v = 0 then -1 else v

/-- The height assignment of `addBlock`: orphans (and children of height-0
parents, by the `|| -1` read) get height 1, others parent height + 1. -/
def heightStage (s : NodeState) (block : Block) (blockHash : String) : NodeState :=
  if prevHeightJs s block = -1 then
    { s with blockHeights := mapSet s.blockHeights blockHash 1 }
  else
    { s with blockHeights := mapSet s.blockHeights blockHash (prevHeightJs s block + 1) }

/-- The unconditional transaction-application step of `addBlock`
(`processBlockTransactions` on the live balances and pending pool). -/
def txStage (s : NodeState) (block : Block) : NodeState :=
  let pr := processBlockTxs s.balances s.transactions block.transactions
  { s with balances := pr.1, transactions := pr.2 }

/-- The state after a regular (non-genesis) block passed validation: store
it, assign its height, apply its transactions. -/
def regularStage (H : Hasher) (s : NodeState) (block : Block) : NodeState :=
  txStage
    (heightStage (insertBlockStage s block (blockIdHash H block)) block (blockIdHash H block))
    block

/-- `InventoryManager.addBlock`.  Returns whether the block was added
together with the new state. -/
def addBlock (H : Hasher) (s : NodeState) (block : Block) : Bool × NodeState :=
  if s.seenMessages.contains (blockIdHash H block)
      || s.seenMessages.contains (calculateBlockHash H block) then
    (false, s)
  else if block.isGenesis then (true, genesisAccept s block (blockIdHash H block))
  else if validateBlockStructure s block (calculateBlockHash H block) then
    if validateBlockTransactions s block.transactions then
      (true, applyConsensusRules (regularStage H s block) (blockIdHash H block))
    else (false, s)
  else (false, s)

/-- The all-zero previous hash of the locally created genesis block. -/
def genesisPrevHash : String :=
  "0000000000000000000000000000000000000000000000000000000000000000"

/-- `InventoryManager.createGenesisBlock`: guarded by `genesisCreated` and
by the block store being empty. -/
def createGenesisBlock (H : Hasher) (s : NodeState) (nodeId timestamp : String) :
    Option Block × NodeState :=
  if s.genesisCreated || decide (0 < s.blocks.length) then (none, s)
  else
    let genesisBlock : Block :=
      { isGenesis := true, previousHash := genesisPrevHash, timestamp := timestamp,
        nonce := "0", creator := nodeId, merkleRoot := "", count := 0,
        transactions := [], hash := "" }
    let genesisHash := calculateBlockHash H genesisBlock
    let gb := { genesisBlock with hash := genesisHash }
    (some gb,
      { s with blocks := mapSet s.blocks genesisHash gb,
               seenMessages := genesisHash :: s.seenMessages,
               genesisCreated := true,
               blockHeights := mapSet s.blockHeights genesisHash 0,
               blockchainHead := some genesisHash,
               balances := mapSet s.balances nodeId 100 })

/-- Direct block insertion of `syncInventoryWithPeers`: an unseen fetched
block is stored under its declared hash with no validation at all. -/
def syncInsertBlock (s : NodeState) (block : Block) : NodeState :=
  if s.seenMessages.contains block.hash then s
  else
    { s with blocks := mapSet s.blocks block.hash block,
             seenMessages := block.hash :: s.seenMessages }

/-- Direct transaction insertion of `syncInventoryWithPeers`. -/
def syncInsertTransaction (s : NodeState) (tx : Tx) : NodeState :=
  if (tx.id != "") && !(s.seenMessages.contains tx.id) then
    { s with transactions := mapSet s.transactions tx.id tx,
             seenMessages := tx.id :: s.seenMessages }
  else s

/-- The state-mutating entry points of the inventory manager. -/
inductive Op where
  | opAddBlock : Block → Op
  | opAddTransaction : Tx → Op
  | opCreateGenesis : String → String → Op
  | opSyncBlock : Block → Op
  | opSyncTransaction : Tx → Op
deriving DecidableEq

/-- Effect of one entry point on the state. -/
def applyOp (H : Hasher) (s : NodeState) : Op → NodeState
  | .opAddBlock b => (addBlock H s b).2
  | .opAddTransaction tx => (addTransaction s tx).2
  | .opCreateGenesis nid ts => (createGenesisBlock H s nid ts).2
  | .opSyncBlock b => syncInsertBlock s b
  | .opSyncTransaction tx => syncInsertTransaction s tx

/-- Run a sequence of entry points from the constructor state. -/
def runOps (H : Hasher) (ops : List Op) : NodeState :=
  ops.foldl (applyOp H) initState

/-- States the node can actually be in. -/
def Reachable (H : Hasher) (s : NodeState) : Prop :=
  ∃ ops : List Op, runOps H ops = s

/-- The odd-length padding step of `getMerkleRoot` (`miner.mjs`): duplicate
the last hash when the level has odd length. -/
def padLastDup (l : List String) : List String :=
  if l.length % 2 ≠ 0 then l ++ [l.getLastD ""] else l

/-- The pairing step of `getMerkleRoot`: hash the concatenation of each
adjacent pair (the input has even length after padding). -/
def hashAdjacentPairs (sha : String → String) : List String → List String
  | a :: b :: rest => sha (a ++ b) :: hashAdjacentPairs sha rest
  | _ => []

/-- The `while (allTxsHashes.length > 1)` loop of `getMerkleRoot`, with an
explicit fuel for structural recursion.  Each pass at least halves a level
of length ≥ 2, so a fuel equal to the initial length is never exhausted
(`merkleCombineFuel_irrel` below). -/
def merkleCombineFuel (sha : String → String) : Nat → List String → String
  | 0, l => l.headD ""
  | Nat.succ fuel, l =>
    if 2 ≤ l.length then merkleCombineFuel sha fuel (hashAdjacentPairs sha (padLastDup l))
    else l.headD ""

/-- The `while (allTxsHashes.length > 1)` loop of `getMerkleRoot`. -/
def merkleCombine (sha : String → String) (l : List String) : String :=
  merkleCombineFuel sha l.length l

/-- `getMerkleRoot` (`miner.mjs`): empty string for no transactions, else
hash each transaction's serialization into leaves and combine. -/
def getMerkleRoot (sha : String → String) (serTx : Tx → String)
    (transactions : List Tx) : String :=
  if transactions.length = 0 then ""
  else merkleCombine sha (transactions.map (fun tx => sha (serTx tx)))

/-- Heights as the consensus comparison reads them (`get(...) || 0`). -/
def heightOr0 (s : NodeState) (h : String) : Int :=
  (mapFind s.blockHeights h).getD 0

/-- No transaction of the list is a self-transfer that the reorg rollback
guard would process (such a rollback loses coins, see `rollbackTx`). -/
def SelfSendFree (txs : List Tx) : Prop :=
  ∀ tx ∈ txs, tx.sender = tx.receiver → tx.sender = "" ∨ tx.amount = 0

/-- The current head (when set) has been recorded in `seenMessages`. -/
def HeadSeen (s : NodeState) : Prop :=
  ∀ h, s.blockchainHead = some h → h ∈ s.seenMessages

/-- Trace conditions for the balance-conservation invariant: only local
entry points (no raw peer-sync insertions), genesis blocks carry a creator,
and no submitted block contains an effective self-transfer. -/
def OpWellFormed : Op → Prop
  | .opAddBlock b => (b.isGenesis = true → b.creator ≠ "") ∧ SelfSendFree b.transactions
  | .opAddTransaction _ => True
  | .opCreateGenesis _ _ => True
  | .opSyncBlock _ => False
  | .opSyncTransaction _ => False

/-- Whether an entry point accepts a genesis block in the given state. -/
def opGenCount (H : Hasher) (s : NodeState) : Op → Nat
  | .opAddBlock b => if b.isGenesis && (addBlock H s b).1 then 1 else 0
  | .opCreateGenesis nid ts => if (createGenesisBlock H s nid ts).1.isSome then 1 else 0
  | _ => 0

/-- Number of genesis blocks accepted along a trace from a given state. -/
def genCountFrom (H : Hasher) (s : NodeState) : List Op → Nat
  | [] => 0
  | op :: rest => opGenCount H s op + genCountFrom H (applyOp H s op) rest

/-- Number of genesis blocks accepted along a trace from the start state. -/
def genCount (H : Hasher) (ops : List Op) : Nat :=
  genCountFrom H initState ops

/-- Induction invariant for balance conservation, indexed by the number of
genesis blocks accepted so far. -/
def BalInv (s : NodeState) (n : Nat) : Prop :=
  (∀ p ∈ s.blocks, SelfSendFree (p.2).transactions) ∧
  (n = 0 → s.balances = [] ∧ ∀ p ∈ s.blocks, (p.2).transactions = ([] : List Tx)) ∧
  (n = 1 → mapSumInt s.balances = 100) ∧
  (1 ≤ n → s.genesisCreated = true)

/-! ### Concrete data for witnesses and counterexamples -/

/-- A concrete stand-in for SHA-256 under which every calculated hash meets
the difficulty: hashes are `"0000" ++ timestamp ++ nonce`. -/
def hashDemo : Hasher :=
  { sha256 := fun s => "0000" ++ s,
    serBlockNoHash := fun b => b.timestamp,
    serTx := fun tx => tx.id }

/-- A concrete stand-in for SHA-256 under which no calculated hash meets
the difficulty. -/
def hashBad : Hasher :=
  { sha256 := fun s => "ffff" ++ s,
    serBlockNoHash := fun b => b.timestamp,
    serTx := fun tx => tx.id }

/-- A pending transfer of 10 coins from `A` to `B`. -/
def txT1 : Tx := { id := "T1", sender := "A", receiver := "B", amount := 10 }

/-- A self-transfer of 5 coins from `A` to `A`. -/
def txSelf : Tx := { id := "S1", sender := "A", receiver := "A", amount := 5 }

/-- Child of the demo genesis (`hash "0000a0"`) carrying `txT1`. -/
def blkB1 : Block :=
  { isGenesis := false, previousHash := "0000a0", timestamp := "b", nonce := "1",
    creator := "A", merkleRoot := "", count := 1, transactions := [txT1], hash := "" }

/-- Empty child of the demo genesis; its hash `"0000c1"` loses the
equal-height tie against `"0000b1"`. -/
def blkC : Block :=
  { isGenesis := false, previousHash := "0000a0", timestamp := "c", nonce := "1",
    creator := "C", merkleRoot := "", count := 0, transactions := [], hash := "" }

/-- Empty child of `blkC` (hash `"0000d1"`), at height 2. -/
def blkD : Block :=
  { isGenesis := false, previousHash := "0000c1", timestamp := "d", nonce := "1",
    creator := "C", merkleRoot := "", count := 0, transactions := [], hash := "" }

/-- Child of the demo genesis carrying the self-transfer `txSelf`. -/
def blkSelf : Block :=
  { isGenesis := false, previousHash := "0000a0", timestamp := "b", nonce := "1",
    creator := "A", merkleRoot := "", count := 1, transactions := [txSelf], hash := "" }

/-- An orphan: its parent `"0000b1"` is unknown when it arrives. -/
def blkOrphan : Block :=
  { isGenesis := false, previousHash := "0000b1", timestamp := "c", nonce := "1",
    creator := "C", merkleRoot := "", count := 0, transactions := [], hash := "" }

/-- The late parent of `blkOrphan`: an empty child of the demo genesis with
hash `"0000b1"`. -/
def blkParent : Block :=
  { isGenesis := false, previousHash := "0000a0", timestamp := "b", nonce := "1",
    creator := "P", merkleRoot := "", count := 0, transactions := [], hash := "" }

/-- A second genesis block (distinct hash, same creator `A`). -/
def gen2 : Block :=
  { isGenesis := true, previousHash := genesisPrevHash, timestamp := "b", nonce := "0",
    creator := "A", merkleRoot := "", count := 0, transactions := [], hash := "" }

/-- A block whose declared hash `"deadbeef"` differs from its calculated
hash `"0000e1"`. -/
def blkMismatch : Block :=
  { isGenesis := false, previousHash := "0000a0", timestamp := "e", nonce := "1",
    creator := "A", merkleRoot := "", count := 0, transactions := [], hash := "deadbeef" }

/-- A block that fails proof of work under `hashBad`. -/
def blkNoPow : Block :=
  { isGenesis := false, previousHash := "x", timestamp := "z", nonce := "1",
    creator := "A", merkleRoot := "", count := 0, transactions := [], hash := "bbad" }

/-- Create the demo genesis: head `"0000a0"`, creator `A` endowed 100. -/
def opsGenesis : List Op := [Op.opCreateGenesis "A" "a"]

/-- The node state right after the demo genesis. -/
def stateGenesis : NodeState := runOps hashDemo opsGenesis

/-- The reorg trace: genesis; `txT1` enters the pending pool; `blkB1` mines
it and becomes head; the empty fork `blkC`/`blkD` overtakes at height 2 and
the reorg abandons `blkB1` without restoring `txT1`. -/
def opsReorg : List Op :=
  [Op.opCreateGenesis "A" "a", Op.opAddTransaction txT1,
   Op.opAddBlock blkB1, Op.opAddBlock blkC, Op.opAddBlock blkD]

/-- Reorg trace whose abandoned branch holds a self-transfer. -/
def opsSelfSend : List Op :=
  [Op.opCreateGenesis "A" "a", Op.opAddBlock blkSelf,
   Op.opAddBlock blkC, Op.opAddBlock blkD]

/-- Orphan-then-parent trace for the height invariant. -/
def opsOrphan : List Op :=
  [Op.opCreateGenesis "A" "a", Op.opAddBlock blkOrphan, Op.opAddBlock blkParent]

/-- Two accepted genesis blocks with the same creator. -/
def opsTwoGenesis : List Op := [Op.opCreateGenesis "A" "a", Op.opAddBlock gen2]

/-- Genesis followed by its empty child `blkC`. -/
def opsGenC : List Op := [Op.opCreateGenesis "A" "a", Op.opAddBlock blkC]

/-- The node state after genesis and `blkC` (head `"0000c1"`, height 1). -/
def stateGenC : NodeState := runOps hashDemo opsGenC

/-- Whether an entry point is a raw peer-sync block insertion. -/
def isSyncBlockOp : Op → Bool
  | .opSyncBlock _ => true
  | _ => false

/-- Every non-genesis stored block satisfies proof of work on its
recomputed hash. -/
def PowOk (H : Hasher) (s : NodeState) : Prop :=
  ∀ p ∈ s.blocks, (p.2).isGenesis = false →
    strStarts (calculateBlockHash H (p.2)) "0000" = true

/-! ### Association-list lemmas -/

theorem mapFind_mapSet_self {α : Type} (m : List (String × α)) (k : String) (v : α) :
    mapFind (mapSet m k v) k = some v := by
  induction m with
  | nil => simp [mapSet, mapFind]
  | cons p rest ih =>
    by_cases h : p.1 = k
    · simp [mapSet, h, mapFind]
    · simp [mapSet, h, mapFind, ih]

theorem mapFind_mapSet_ne {α : Type} (m : List (String × α)) (k k' : String) (v : α)
    (h : k' ≠ k) : mapFind (mapSet m k v) k' = mapFind m k' := by
  have h2 : ¬ (k = k') := fun hh => h hh.symm
  induction m with
  | nil => simp [mapSet, mapFind, h2]
  | cons p rest ih =>
    by_cases hp : p.1 = k
    · subst hp
      simp [mapSet, mapFind, h2]
    · simp [mapSet, hp, mapFind, ih]

theorem mapSumInt_mapSet (m : List (String × Int)) (k : String) (v : Int) :
    mapSumInt (mapSet m k v) = mapSumInt m + (v - (mapFind m k).getD 0) := by
  induction m with
  | nil => simp [mapSet, mapFind, mapSumInt]
  | cons p rest ih =>
    by_cases h : p.1 = k
    · simp [mapSet, h, mapFind, mapSumInt]
      ring
    · simp [mapSet, h, mapFind, mapSumInt] at ih ⊢
      omega

theorem mem_mapSet {α : Type} (m : List (String × α)) (k : String) (v : α)
    (p : String × α) (hp : p ∈ mapSet m k v) : p ∈ m ∨ p = (k, v) := by
  induction m with
  | nil => simpa [mapSet] using hp
  | cons q rest ih =>
    by_cases h : q.1 = k
    · simp [mapSet, h] at hp
      rcases hp with hp | hp
      · right; simp [hp]
      · left; simp [hp]
    · simp [mapSet, h] at hp
      rcases hp with hp | hp
      · left; simp [hp]
      · rcases ih hp with hh | hh
        · left; simp [hh]
        · right; exact hh

theorem mapFind_mem {α : Type} (m : List (String × α)) (k : String) (v : α)
    (h : mapFind m k = some v) : (k, v) ∈ m := by
  induction m with
  | nil => simp [mapFind] at h
  | cons p rest ih =>
    obtain ⟨a, b⟩ := p
    by_cases hp : a = k
    · subst hp
      simp [mapFind] at h
      subst h
      exact List.mem_cons_self _ _
    · simp only [mapFind] at h
      rw [if_neg hp] at h
      exact List.mem_cons_of_mem _ (ih h)

/-! ### Balance-sum preservation -/

/-- Applying one block transaction is zero-sum on the balances (the
receiver balance is read after the sender write, so even a self-transfer
nets to zero). -/
theorem processTx_fst_sum (bal : List (String × Int)) (pend : List (String × Tx))
    (tx : Tx) : mapSumInt (processTx bal pend tx).1 = mapSumInt bal := by
  unfold processTx
  split
  · rfl
  · simp only [mapSumInt_mapSet]
    omega

theorem processBlockTxs_fst_sum (txs : List Tx) :
    ∀ (bal : List (String × Int)) (pend : List (String × Tx)),
      mapSumInt (processBlockTxs bal pend txs).1 = mapSumInt bal := by
  induction txs with
  | nil => intro bal pend; rfl
  | cons tx rest ih =>
    intro bal pend
    have h1 : processBlockTxs bal pend (tx :: rest) =
        processBlockTxs (processTx bal pend tx).1 (processTx bal pend tx).2 rest := by
      simp [processBlockTxs]
    rw [h1, ih, processTx_fst_sum]

/-- A transaction whose sender and receiver differ (or that the rollback
guard skips) rolls back zero-sum. -/
theorem rollbackTx_sum (bal : List (String × Int)) (tx : Tx)
    (h : tx.sender = tx.receiver → tx.sender = "" ∨ tx.amount = 0) :
    mapSumInt (rollbackTx bal tx) = mapSumInt bal := by
  unfold rollbackTx
  split
  · rename_i hg
    have hne : tx.receiver ≠ tx.sender := by
      intro he
      rcases h he.symm with h1 | h1
      · exact hg.1 h1
      · exact hg.2.2 h1
    rw [mapSumInt_mapSet, mapSumInt_mapSet, mapFind_mapSet_ne _ _ _ _ hne]
    omega
  · rfl

theorem rollbackTxList_sum (txs : List Tx) (hfree : SelfSendFree txs) :
    ∀ bal : List (String × Int), mapSumInt (txs.foldl rollbackTx bal) = mapSumInt bal := by
  induction txs with
  | nil => intro bal; rfl
  | cons tx rest ih =>
    intro bal
    have hrest : SelfSendFree rest := fun t ht => hfree t (List.mem_cons_of_mem _ ht)
    simp only [List.foldl_cons]
    rw [ih hrest, rollbackTx_sum _ _ (hfree tx (List.mem_cons_self _ _))]

theorem rollbackBlocks_sum (blocks : List (String × Block))
    (hblocks : ∀ p ∈ blocks, SelfSendFree p.2.transactions) (hashes : List String) :
    ∀ bal : List (String × Int),
      mapSumInt (rollbackBlocks blocks bal hashes) = mapSumInt bal := by
  induction hashes with
  | nil => intro bal; rfl
  | cons h rest ih =>
    intro bal
    have hstep : rollbackBlocks blocks bal (h :: rest) =
        rollbackBlocks blocks
          (match mapFind blocks h with
           | some blk => blk.transactions.foldl rollbackTx bal
           | none => bal) rest := by
      simp [rollbackBlocks]
    rw [hstep, ih]
    rcases hfind : mapFind blocks h with _ | blk
    · simp
    · simp only
      exact rollbackTxList_sum _ (hblocks _ (mapFind_mem _ _ _ hfind)) bal

theorem applyBlocks_fst_sum (blocks : List (String × Block)) (hashes : List String) :
    ∀ (bal : List (String × Int)) (pend : List (String × Tx)),
      mapSumInt (applyBlocks blocks bal pend hashes).1 = mapSumInt bal := by
  induction hashes with
  | nil => intro bal pend; rfl
  | cons h rest ih =>
    intro bal pend
    have hstep : applyBlocks blocks bal pend (h :: rest) =
        applyBlocks blocks
          (match mapFind blocks h with
           | some blk => processBlockTxs bal pend blk.transactions
           | none => (bal, pend)).1
          (match mapFind blocks h with
           | some blk => processBlockTxs bal pend blk.transactions
           | none => (bal, pend)).2 rest := by
      simp [applyBlocks]
    rw [hstep, ih]
    rcases mapFind blocks h with _ | blk
    · simp
    · simp only
      exact processBlockTxs_fst_sum _ _ _

/-! ### Frame facts about the state transformers -/

theorem reorg_blocks (s : NodeState) (a b : String) :
    (handleChainReorganization s a b).blocks = s.blocks := rfl

theorem reorg_heights (s : NodeState) (a b : String) :
    (handleChainReorganization s a b).blockHeights = s.blockHeights := rfl

theorem reorg_seen (s : NodeState) (a b : String) :
    (handleChainReorganization s a b).seenMessages = s.seenMessages := rfl

theorem reorg_genesisCreated (s : NodeState) (a b : String) :
    (handleChainReorganization s a b).genesisCreated = s.genesisCreated := rfl

theorem reorg_head (s : NodeState) (a b : String) :
    (handleChainReorganization s a b).blockchainHead = s.blockchainHead := rfl

theorem reorg_balances (s : NodeState) (a b : String) :
    (handleChainReorganization s a b).balances =
      (applyBlocks s.blocks
        (rollbackBlocks s.blocks s.balances
          (((getChainToBlock s a).drop
              (commonAncestorIndex (getChainToBlock s a) (getChainToBlock s b))).reverse))
        s.transactions
        ((getChainToBlock s b).drop
          (commonAncestorIndex (getChainToBlock s a) (getChainToBlock s b)))).1 := rfl

theorem consensus_blocks (s : NodeState) (nh : String) :
    (applyConsensusRules s nh).blocks = s.blocks := by
  unfold applyConsensusRules
  cases hh : s.blockchainHead with
  | none => rfl
  | some headHash =>
    dsimp only
    split
    · rfl
    · split <;> rfl

theorem consensus_heights (s : NodeState) (nh : String) :
    (applyConsensusRules s nh).blockHeights = s.blockHeights := by
  unfold applyConsensusRules
  cases hh : s.blockchainHead with
  | none => rfl
  | some headHash =>
    dsimp only
    split
    · rfl
    · split <;> rfl

theorem consensus_seen (s : NodeState) (nh : String) :
    (applyConsensusRules s nh).seenMessages = s.seenMessages := by
  unfold applyConsensusRules
  cases hh : s.blockchainHead with
  | none => rfl
  | some headHash =>
    dsimp only
    split
    · rfl
    · split <;> rfl

theorem consensus_genesisCreated (s : NodeState) (nh : String) :
    (applyConsensusRules s nh).genesisCreated = s.genesisCreated := by
  unfold applyConsensusRules
  cases hh : s.blockchainHead with
  | none => rfl
  | some headHash =>
    dsimp only
    split
    · rfl
    · split <;> rfl

theorem consensus_head_cases (s : NodeState) (nh : String) :
    (applyConsensusRules s nh).blockchainHead = some nh ∨
      (applyConsensusRules s nh).blockchainHead = s.blockchainHead := by
  unfold applyConsensusRules
  cases hh : s.blockchainHead with
  | none => left; rfl
  | some headHash =>
    dsimp only
    split
    · left; rfl
    · split
      · left; rfl
      · right; rw [hh]

/-- The balances after consensus: unchanged, or reorganized from the old
head to the new block. -/
theorem consensus_balances_cases (s : NodeState) (nh : String) :
    (applyConsensusRules s nh).balances = s.balances ∨
      ∃ oldHead, (applyConsensusRules s nh).balances =
        (handleChainReorganization s oldHead nh).balances := by
  unfold applyConsensusRules
  cases hh : s.blockchainHead with
  | none => left; rfl
  | some headHash =>
    dsimp only
    split
    · right; exact ⟨headHash, rfl⟩
    · split
      · right; exact ⟨headHash, rfl⟩
      · left; rfl

theorem regularStage_blocks (H : Hasher) (s : NodeState) (b : Block) :
    (regularStage H s b).blocks =
      mapSet s.blocks (blockIdHash H b) { b with hash := blockIdHash H b } := by
  unfold regularStage txStage heightStage insertBlockStage
  split <;> rfl

theorem regularStage_seen (H : Hasher) (s : NodeState) (b : Block) :
    (regularStage H s b).seenMessages = blockIdHash H b :: s.seenMessages := by
  unfold regularStage txStage heightStage insertBlockStage
  split <;> rfl

theorem regularStage_genesisCreated (H : Hasher) (s : NodeState) (b : Block) :
    (regularStage H s b).genesisCreated = s.genesisCreated := by
  unfold regularStage txStage heightStage insertBlockStage
  split <;> rfl

theorem regularStage_head (H : Hasher) (s : NodeState) (b : Block) :
    (regularStage H s b).blockchainHead = s.blockchainHead := by
  unfold regularStage txStage heightStage insertBlockStage
  split <;> rfl

theorem regularStage_balances (H : Hasher) (s : NodeState) (b : Block) :
    (regularStage H s b).balances =
      (processBlockTxs s.balances s.transactions b.transactions).1 := by
  unfold regularStage txStage heightStage insertBlockStage
  split <;> rfl

theorem genesisAccept_genesisCreated (s : NodeState) (b : Block) (bh : String) :
    (genesisAccept s b bh).genesisCreated = true := by
  unfold genesisAccept
  split <;> rfl

theorem genesisAccept_head (s : NodeState) (b : Block) (bh : String) :
    (genesisAccept s b bh).blockchainHead = some bh := by
  unfold genesisAccept
  split <;> rfl

theorem genesisAccept_seen (s : NodeState) (b : Block) (bh : String) :
    (genesisAccept s b bh).seenMessages = bh :: s.seenMessages := by
  unfold genesisAccept
  split <;> rfl

theorem genesisAccept_blocks (s : NodeState) (b : Block) (bh : String) :
    (genesisAccept s b bh).blocks = mapSet s.blocks bh { b with hash := bh } := by
  unfold genesisAccept
  split <;> rfl

theorem genesisAccept_balances (s : NodeState) (b : Block) (bh : String) :
    (genesisAccept s b bh).balances =
      if b.creator ≠ "" then mapSet s.balances b.creator 100 else s.balances := by
  unfold genesisAccept
  split <;> simp_all

/-- Full case analysis of `addBlock`: rejected with the state unchanged, a
genesis accept, or a validated regular accept. -/
theorem addBlock_cases (H : Hasher) (s : NodeState) (b : Block) :
    addBlock H s b = (false, s) ∨
    (s.seenMessages.contains (blockIdHash H b) = false ∧
      ((b.isGenesis = true ∧
        addBlock H s b = (true, genesisAccept s b (blockIdHash H b))) ∨
       (b.isGenesis = false ∧
        validateBlockTransactions s b.transactions = true ∧
        validateBlockStructure s b (calculateBlockHash H b) = true ∧
        addBlock H s b =
          (true, applyConsensusRules (regularStage H s b) (blockIdHash H b))))) := by
  by_cases hseen : (s.seenMessages.contains (blockIdHash H b)
      || s.seenMessages.contains (calculateBlockHash H b)) = true
  · left
    unfold addBlock
    rw [hseen]
    simp
  · rw [Bool.not_eq_true] at hseen
    have hseen' : s.seenMessages.contains (blockIdHash H b) = false := by
      cases hA : s.seenMessages.contains (blockIdHash H b) with
      | false => rfl
      | true => rw [hA] at hseen; simp at hseen
    by_cases hgen : b.isGenesis = true
    · right
      refine ⟨hseen', Or.inl ⟨hgen, ?_⟩⟩
      unfold addBlock
      rw [hseen, hgen]
      simp
    · rw [Bool.not_eq_true] at hgen
      by_cases hstruct : validateBlockStructure s b (calculateBlockHash H b) = true
      · by_cases htx : validateBlockTransactions s b.transactions = true
        · right
          refine ⟨hseen', Or.inr ⟨hgen, htx, hstruct, ?_⟩⟩
          unfold addBlock
          rw [hseen, hgen, hstruct, htx]
          simp
        · left
          rw [Bool.not_eq_true] at htx
          unfold addBlock
          rw [hseen, hgen, hstruct, htx]
          simp
      · left
        rw [Bool.not_eq_true] at hstruct
        unfold addBlock
        rw [hseen, hgen, hstruct]
        simp

/-! ### The chain head is always a seen message -/

theorem addTransaction_state_cases (s : NodeState) (tx : Tx) :
    (addTransaction s tx).2 = s ∨
      (addTransaction s tx).2 =
        { s with transactions := mapSet s.transactions tx.id tx,
                 seenMessages := tx.id :: s.seenMessages } := by
  unfold addTransaction
  split
  · left; rfl
  · split
    · right; rfl
    · left; rfl

theorem createGenesis_state_cases (H : Hasher) (s : NodeState) (nid ts : String) :
    ((createGenesisBlock H s nid ts).2 = s ∧ (createGenesisBlock H s nid ts).1 = none) ∨
      ∃ gb : Block,
        (createGenesisBlock H s nid ts).2 =
          { s with blocks := mapSet s.blocks (calculateBlockHash H gb) gb,
                   seenMessages := calculateBlockHash H gb :: s.seenMessages,
                   genesisCreated := true,
                   blockHeights := mapSet s.blockHeights (calculateBlockHash H gb) 0,
                   blockchainHead := some (calculateBlockHash H gb),
                   balances := mapSet s.balances nid 100 } ∧
          gb.transactions = [] ∧ gb.isGenesis = true ∧
          (createGenesisBlock H s nid ts).1 = some gb := by
  unfold createGenesisBlock
  split
  · left; exact ⟨rfl, rfl⟩
  · right
    refine ⟨{ isGenesis := true, previousHash := genesisPrevHash, timestamp := ts,
              nonce := "0", creator := nid, merkleRoot := "", count := 0,
              transactions := [],
              hash := calculateBlockHash H
                { isGenesis := true, previousHash := genesisPrevHash, timestamp := ts,
                  nonce := "0", creator := nid, merkleRoot := "", count := 0,
                  transactions := [], hash := "" } }, ?_, rfl, rfl, rfl⟩
    have hsame : calculateBlockHash H
        { isGenesis := true, previousHash := genesisPrevHash, timestamp := ts,
          nonce := "0", creator := nid, merkleRoot := "", count := 0,
          transactions := [],
          hash := calculateBlockHash H
            { isGenesis := true, previousHash := genesisPrevHash, timestamp := ts,
              nonce := "0", creator := nid, merkleRoot := "", count := 0,
              transactions := [], hash := "" } } =
        calculateBlockHash H
          { isGenesis := true, previousHash := genesisPrevHash, timestamp := ts,
            nonce := "0", creator := nid, merkleRoot := "", count := 0,
            transactions := [], hash := "" } := rfl
    rw [hsame]

theorem syncInsertBlock_state_cases (s : NodeState) (b : Block) :
    syncInsertBlock s b = s ∨
      syncInsertBlock s b =
        { s with blocks := mapSet s.blocks b.hash b,
                 seenMessages := b.hash :: s.seenMessages } := by
  unfold syncInsertBlock
  split
  · left; rfl
  · right; rfl

theorem syncInsertTransaction_state_cases (s : NodeState) (tx : Tx) :
    syncInsertTransaction s tx = s ∨
      syncInsertTransaction s tx =
        { s with transactions := mapSet s.transactions tx.id tx,
                 seenMessages := tx.id :: s.seenMessages } := by
  unfold syncInsertTransaction
  split
  · right; rfl
  · left; rfl

theorem applyOp_headSeen (H : Hasher) (op : Op) (s : NodeState) (hs : HeadSeen s) :
    HeadSeen (applyOp H s op) := by
  cases op with
  | opAddBlock b =>
    show HeadSeen (addBlock H s b).2
    rcases addBlock_cases H s b with hc | ⟨-, hc | hc⟩
    · rw [hc]; exact hs
    · rw [hc.2]
      intro h hh
      rw [genesisAccept_head] at hh
      rw [genesisAccept_seen]
      cases hh
      exact List.mem_cons_self _ _
    · rw [hc.2.2.2]
      intro h hh
      dsimp only at hh
      rw [consensus_seen, regularStage_seen]
      rcases consensus_head_cases (regularStage H s b) (blockIdHash H b) with hd | hd
      · rw [hd] at hh
        cases hh
        exact List.mem_cons_self _ _
      · rw [hd, regularStage_head] at hh
        exact List.mem_cons_of_mem _ (hs h hh)
  | opAddTransaction tx =>
    show HeadSeen (addTransaction s tx).2
    rcases addTransaction_state_cases s tx with hc | hc <;> rw [hc]
    · exact hs
    · intro h hh
      exact List.mem_cons_of_mem _ (hs h hh)
  | opCreateGenesis nid ts =>
    show HeadSeen (createGenesisBlock H s nid ts).2
    rcases createGenesis_state_cases H s nid ts with ⟨hc, -⟩ | ⟨gb, hc, -, -, -⟩ <;> rw [hc]
    · exact hs
    · intro h hh
      cases hh
      exact List.mem_cons_self _ _
  | opSyncBlock b =>
    show HeadSeen (syncInsertBlock s b)
    rcases syncInsertBlock_state_cases s b with hc | hc <;> rw [hc]
    · exact hs
    · intro h hh
      exact List.mem_cons_of_mem _ (hs h hh)
  | opSyncTransaction tx =>
    show HeadSeen (syncInsertTransaction s tx)
    rcases syncInsertTransaction_state_cases s tx with hc | hc <;> rw [hc]
    · exact hs
    · intro h hh
      exact List.mem_cons_of_mem _ (hs h hh)

theorem foldl_headSeen (H : Hasher) :
    ∀ (ops : List Op) (s : NodeState), HeadSeen s →
      HeadSeen (ops.foldl (applyOp H) s)
  | [], _, hs => hs
  | op :: rest, s, hs =>
    foldl_headSeen H rest (applyOp H s op) (applyOp_headSeen H op s hs)

theorem reachable_headSeen (H : Hasher) (s : NodeState) (h : Reachable H s) :
    HeadSeen s := by
  obtain ⟨ops, hops⟩ := h
  rw [← hops]
  exact foldl_headSeen H ops initState (by intro x hx; simp [initState] at hx)

theorem seen_contains_iff (l : List String) (x : String) :
    l.contains x = true ↔ x ∈ l := by
  induction l with
  | nil => simp
  | cons a rest ih => simp [List.contains_cons]

/-- How `applyConsensusRules` picks the head when one already exists. -/
theorem consensus_decision (s : NodeState) (nh oldHead : String)
    (hhead : s.blockchainHead = some oldHead) (hne : nh ≠ oldHead) :
    ((applyConsensusRules s nh).blockchainHead = some nh ↔
      ((mapFind s.blockHeights oldHead).getD 0 < (mapFind s.blockHeights nh).getD 0 ∨
       ((mapFind s.blockHeights nh).getD 0 = (mapFind s.blockHeights oldHead).getD 0 ∧
        strLt nh oldHead = true))) ∧
    ((applyConsensusRules s nh).blockchainHead = some nh ∨
     (applyConsensusRules s nh).blockchainHead = some oldHead) := by
  unfold applyConsensusRules
  rw [hhead]
  dsimp only
  split_ifs with h1 h2
  · exact ⟨⟨fun _ => Or.inl h1, fun _ => rfl⟩, Or.inl rfl⟩
  · exact ⟨⟨fun _ => Or.inr h2, fun _ => rfl⟩, Or.inl rfl⟩
  · constructor
    · constructor
      · intro hcon
        rw [hhead] at hcon
        exact absurd (Option.some.inj hcon).symm hne
      · intro hr
        rcases hr with hr | hr
        · exact absurd hr h1
        · exact absurd hr h2
    · right
      exact hhead

/-- C1: when `addBlock` accepts a new non-genesis block while a head
exists, the block is stored, and it becomes the head if and only if its
recorded height strictly exceeds the current head's height, or the heights
are equal and its identity hash is lexicographically smaller; otherwise the
previous head is retained (the block stays as a side branch). -/
theorem consensusRule_addBlock_head (H : Hasher) (s : NodeState) (b : Block)
    (oldHead : String)
    (hreach : Reachable H s)
    (hhead : s.blockchainHead = some oldHead)
    (hgen : b.isGenesis = false)
    (hacc : (addBlock H s b).1 = true) :
    mapFind (addBlock H s b).2.blocks (blockIdHash H b) =
        some { b with hash := blockIdHash H b } ∧
    ((addBlock H s b).2.blockchainHead = some (blockIdHash H b) ∨
     (addBlock H s b).2.blockchainHead = some oldHead) ∧
    ((addBlock H s b).2.blockchainHead = some (blockIdHash H b) ↔
      (heightOr0 (addBlock H s b).2 oldHead < heightOr0 (addBlock H s b).2 (blockIdHash H b) ∨
       (heightOr0 (addBlock H s b).2 (blockIdHash H b) = heightOr0 (addBlock H s b).2 oldHead ∧
        strLt (blockIdHash H b) oldHead = true))) := by
  rcases addBlock_cases H s b with hc | ⟨hseen, hc | hc⟩
  · rw [hc] at hacc
    simp at hacc
  · rw [hc.1] at hgen
    simp at hgen
  · obtain ⟨-, -, -, heq⟩ := hc
    have hne : blockIdHash H b ≠ oldHead := by
      intro he
      have hmem := reachable_headSeen H s hreach oldHead hhead
      rw [← he] at hmem
      have hcmem : s.seenMessages.contains (blockIdHash H b) = true :=
        (seen_contains_iff _ _).mpr hmem
      rw [hseen] at hcmem
      exact Bool.false_ne_true hcmem
    have hheadt : (regularStage H s b).blockchainHead = some oldHead := by
      rw [regularStage_head]
      exact hhead
    have hcd := consensus_decision (regularStage H s b) (blockIdHash H b) oldHead hheadt hne
    rw [heq]
    refine ⟨?_, hcd.2, ?_⟩
    · rw [consensus_blocks, regularStage_blocks]
      exact mapFind_mapSet_self _ _ _
    · have hh : ∀ x, heightOr0 (applyConsensusRules (regularStage H s b) (blockIdHash H b)) x =
          (mapFind (regularStage H s b).blockHeights x).getD 0 := by
        intro x
        unfold heightOr0
        rw [consensus_heights]
      simp only [hh]
      exact hcd.1

/-- Witness for C1: the empty child `blkC` of the demo genesis is accepted
at height 1 and wins the head. -/
theorem consensusRule_addBlock_head_witness :
    Reachable hashDemo stateGenesis ∧
    stateGenesis.blockchainHead = some "0000a0" ∧
    blkC.isGenesis = false ∧
    (addBlock hashDemo stateGenesis blkC).1 = true ∧
    (mapFind (addBlock hashDemo stateGenesis blkC).2.blocks (blockIdHash hashDemo blkC) =
        some { blkC with hash := blockIdHash hashDemo blkC } ∧
     ((addBlock hashDemo stateGenesis blkC).2.blockchainHead =
          some (blockIdHash hashDemo blkC) ∨
      (addBlock hashDemo stateGenesis blkC).2.blockchainHead = some "0000a0") ∧
     ((addBlock hashDemo stateGenesis blkC).2.blockchainHead =
          some (blockIdHash hashDemo blkC) ↔
       (heightOr0 (addBlock hashDemo stateGenesis blkC).2 "0000a0" <
          heightOr0 (addBlock hashDemo stateGenesis blkC).2 (blockIdHash hashDemo blkC) ∨
        (heightOr0 (addBlock hashDemo stateGenesis blkC).2 (blockIdHash hashDemo blkC) =
            heightOr0 (addBlock hashDemo stateGenesis blkC).2 "0000a0" ∧
         strLt (blockIdHash hashDemo blkC) "0000a0" = true)))) :=
  ⟨⟨opsGenesis, rfl⟩, by decide, by decide, by decide,
   consensusRule_addBlock_head hashDemo stateGenesis blkC "0000a0"
     ⟨opsGenesis, rfl⟩ (by decide) (by decide) (by decide)⟩

/-! ### Transaction admission -/

theorem validateTransaction_iff (s : NodeState) (tx : Tx) :
    validateTransaction s tx = true ↔
      (tx.sender ≠ "" ∧ tx.receiver ≠ "" ∧ 0 < tx.amount ∧
       tx.amount ≤ (mapFind s.balances tx.sender).getD 0) := by
  by_cases h1 : (tx.sender = "" ∨ tx.receiver = "" ∨ tx.amount = 0 ∨ tx.amount ≤ 0)
  · have hv : validateTransaction s tx = false := by
      unfold validateTransaction
      rw [if_pos h1]
    rw [hv]
    constructor
    · intro h
      simp at h
    · rintro ⟨ha, hb, hc, -⟩
      exfalso
      rcases h1 with h | h | h | h
      · exact ha h
      · exact hb h
      · omega
      · omega
  · by_cases h2 : (mapFind s.balances tx.sender).getD 0 < tx.amount
    · have hv : validateTransaction s tx = false := by
        unfold validateTransaction
        rw [if_neg h1]
        dsimp only
        rw [if_pos h2]
      rw [hv]
      constructor
      · intro h
        simp at h
      · rintro ⟨-, -, -, hd⟩
        omega
    · have hv : validateTransaction s tx = true := by
        unfold validateTransaction
        rw [if_neg h1]
        dsimp only
        rw [if_neg h2]
      rw [hv]
      push_neg at h1 h2
      obtain ⟨ha, hb, hc, hd⟩ := h1
      constructor
      · intro _
        exact ⟨ha, hb, hd, h2⟩
      · intro _
        rfl

theorem addTransaction_spec_helper (s : NodeState) (tx : Tx) :
    ((addTransaction s tx).1 = true ↔
      (s.seenMessages.contains tx.id = false ∧ tx.sender ≠ "" ∧ tx.receiver ≠ "" ∧
       0 < tx.amount ∧ tx.amount ≤ (mapFind s.balances tx.sender).getD 0)) ∧
    ((addTransaction s tx).1 = true →
      (addTransaction s tx).2 =
        { s with transactions := mapSet s.transactions tx.id tx,
                 seenMessages := tx.id :: s.seenMessages }) ∧
    ((addTransaction s tx).1 = false → (addTransaction s tx).2 = s) := by
  cases hs : s.seenMessages.contains tx.id with
  | true =>
    have hr : addTransaction s tx = (false, s) := by
      unfold addTransaction
      rw [hs]
      simp
    rw [hr]
    refine ⟨?_, ?_, ?_⟩
    · simp
    · intro h
      simp at h
    · intro _
      rfl
  | false =>
    by_cases hv : validateTransaction s tx = true
    · have hr : addTransaction s tx =
          (true,
            { s with transactions := mapSet s.transactions tx.id tx,
                     seenMessages := tx.id :: s.seenMessages }) := by
        unfold addTransaction
        rw [hs, hv]
        simp
      rw [hr]
      refine ⟨?_, ?_, ?_⟩
      · constructor
        · intro _
          exact ⟨rfl, (validateTransaction_iff s tx).mp hv⟩
        · intro _
          rfl
      · intro _
        rfl
      · intro h
        simp at h
    · rw [Bool.not_eq_true] at hv
      have hr : addTransaction s tx = (false, s) := by
        unfold addTransaction
        rw [hs, hv]
        simp
      rw [hr]
      refine ⟨?_, ?_, ?_⟩
      · constructor
        · intro h
          simp at h
        · rintro ⟨-, hfields⟩
          have hvt := (validateTransaction_iff s tx).mpr hfields
          rw [hv] at hvt
          exact hvt
      · intro h
        simp at h
      · intro _
        rfl

/-- C8: `addTransaction` succeeds iff the id is unseen, the required
fields are non-empty, the amount is strictly positive and covered by the
sender's current balance; on success exactly the pending pool and seen set
are extended, on failure the state is unchanged. -/
theorem addTransaction_admission (s : NodeState) (tx : Tx) :
    ((addTransaction s tx).1 = true ↔
      (s.seenMessages.contains tx.id = false ∧ tx.sender ≠ "" ∧ tx.receiver ≠ "" ∧
       0 < tx.amount ∧ tx.amount ≤ (mapFind s.balances tx.sender).getD 0)) ∧
    ((addTransaction s tx).1 = true →
      (addTransaction s tx).2 =
        { s with transactions := mapSet s.transactions tx.id tx,
                 seenMessages := tx.id :: s.seenMessages }) ∧
    ((addTransaction s tx).1 = false → (addTransaction s tx).2 = s) :=
  addTransaction_spec_helper s tx

/-- Witness for C8 on a success and a failure instance. -/
theorem addTransaction_admission_witness :
    ((addTransaction stateGenesis txT1).1 = true ↔
      (stateGenesis.seenMessages.contains txT1.id = false ∧ txT1.sender ≠ "" ∧
       txT1.receiver ≠ "" ∧ 0 < txT1.amount ∧
       txT1.amount ≤ (mapFind stateGenesis.balances txT1.sender).getD 0)) ∧
    ((addTransaction stateGenesis txT1).1 = true →
      (addTransaction stateGenesis txT1).2 =
        { stateGenesis with
            transactions := mapSet stateGenesis.transactions txT1.id txT1,
            seenMessages := txT1.id :: stateGenesis.seenMessages }) ∧
    ((addTransaction stateGenesis txT1).1 = false →
      (addTransaction stateGenesis txT1).2 = stateGenesis) :=
  addTransaction_admission stateGenesis txT1

/-- C10: `addTransaction` never touches the block store, the heights, the
head, or the balances, and when it fails it changes nothing at all. -/
theorem addTransaction_frame (s : NodeState) (tx : Tx) :
    (addTransaction s tx).2.blocks = s.blocks ∧
    (addTransaction s tx).2.blockHeights = s.blockHeights ∧
    (addTransaction s tx).2.blockchainHead = s.blockchainHead ∧
    (addTransaction s tx).2.balances = s.balances ∧
    (addTransaction s tx).2.genesisCreated = s.genesisCreated ∧
    ((addTransaction s tx).1 = false →
      (addTransaction s tx).2.transactions = s.transactions ∧
      (addTransaction s tx).2.seenMessages = s.seenMessages) := by
  have h6 : (addTransaction s tx).1 = false → (addTransaction s tx).2 = s :=
    (addTransaction_spec_helper s tx).2.2
  rcases addTransaction_state_cases s tx with hc | hc <;> rw [hc]
  · exact ⟨rfl, rfl, rfl, rfl, rfl, fun _ => ⟨rfl, rfl⟩⟩
  · refine ⟨rfl, rfl, rfl, rfl, rfl, fun hf => ?_⟩
    have hss := h6 hf
    rw [hc] at hss
    rw [hss]
    exact ⟨rfl, rfl⟩

/-- Witness for C10 on a failing overdraft instance. -/
theorem addTransaction_frame_witness :
    (addTransaction stateGenesis
        { id := "T9", sender := "B", receiver := "A", amount := 7 }).1 = false ∧
    (addTransaction stateGenesis
        { id := "T9", sender := "B", receiver := "A", amount := 7 }).2.balances =
      stateGenesis.balances :=
  ⟨by decide,
   (addTransaction_frame stateGenesis
     { id := "T9", sender := "B", receiver := "A", amount := 7 }).2.2.2.1⟩

/-! ### Merkle root -/

theorem length_hashAdjacentPairs (sha : String → String) :
    ∀ l : List String, (hashAdjacentPairs sha l).length = l.length / 2
  | [] => rfl
  | [_] => by simp [hashAdjacentPairs]
  | _ :: _ :: rest => by
    simp [hashAdjacentPairs, length_hashAdjacentPairs sha rest]
    omega

theorem nextLevel_lt (sha : String → String) (l : List String) (h : 2 ≤ l.length) :
    (hashAdjacentPairs sha (padLastDup l)).length < l.length := by
  rw [length_hashAdjacentPairs]
  have hp : (padLastDup l).length ≤ l.length + 1 := by
    unfold padLastDup
    split <;> simp
  omega

theorem merkleCombineFuel_irrel (sha : String → String) :
    ∀ (n f1 f2 : Nat) (l : List String), l.length ≤ n → l.length ≤ f1 → l.length ≤ f2 →
      merkleCombineFuel sha f1 l = merkleCombineFuel sha f2 l := by
  intro n
  induction n with
  | zero =>
    intro f1 f2 l hn _ _
    have hl : l = [] := List.eq_nil_of_length_eq_zero (Nat.le_zero.mp hn)
    subst hl
    cases f1 <;> cases f2 <;> simp [merkleCombineFuel]
  | succ n ih =>
    intro f1 f2 l hn h1 h2
    by_cases hlen : 2 ≤ l.length
    · cases f1 with
      | zero => omega
      | succ f1' =>
        cases f2 with
        | zero => omega
        | succ f2' =>
          simp only [merkleCombineFuel]
          rw [if_pos hlen, if_pos hlen]
          have hlt := nextLevel_lt sha l hlen
          exact ih f1' f2' _ (by omega) (by omega) (by omega)
    · have hall : ∀ f, merkleCombineFuel sha f l = l.headD "" := by
        intro f
        cases f with
        | zero => rfl
        | succ f' =>
          simp only [merkleCombineFuel]
          rw [if_neg hlen]
      rw [hall f1, hall f2]

/-- C9: `getMerkleRoot` returns the empty string on an empty transaction
list; otherwise it hashes each transaction's serialization into leaves and
repeatedly — duplicating the last hash of an odd-length level — hashes
adjacent pairs until one element remains. -/
theorem getMerkleRoot_spec (sha : String → String) (ser : Tx → String) :
    getMerkleRoot sha ser [] = "" ∧
    (∀ txs : List Tx, txs ≠ [] →
      getMerkleRoot sha ser txs = merkleCombine sha (txs.map (fun tx => sha (ser tx)))) ∧
    (∀ x : String, merkleCombine sha [x] = x) ∧
    (∀ l : List String, 2 ≤ l.length →
      merkleCombine sha l = merkleCombine sha (hashAdjacentPairs sha (padLastDup l))) ∧
    (∀ l : List String, l.length % 2 = 1 → padLastDup l = l ++ [l.getLastD ""]) ∧
    (∀ l : List String, l.length % 2 = 0 → padLastDup l = l) ∧
    (∀ (a b : String) (rest : List String),
      hashAdjacentPairs sha (a :: b :: rest) = sha (a ++ b) :: hashAdjacentPairs sha rest) := by
  refine ⟨rfl, ?_, ?_, ?_, ?_, ?_, fun a b rest => rfl⟩
  · intro txs h
    unfold getMerkleRoot
    rw [if_neg (fun hc => h (List.length_eq_zero.mp hc))]
  · intro x
    rfl
  · intro l h
    have h1 : merkleCombineFuel sha l.length l =
        merkleCombineFuel sha (l.length - 1) (hashAdjacentPairs sha (padLastDup l)) := by
      obtain ⟨k, hk⟩ : ∃ k, l.length = k + 1 := ⟨l.length - 1, by omega⟩
      rw [hk]
      simp only [merkleCombineFuel, Nat.add_sub_cancel]
      rw [if_pos h]
    have hlt := nextLevel_lt sha l h
    unfold merkleCombine
    rw [h1]
    exact merkleCombineFuel_irrel sha
      (hashAdjacentPairs sha (padLastDup l)).length (l.length - 1)
      (hashAdjacentPairs sha (padLastDup l)).length
      (hashAdjacentPairs sha (padLastDup l)) le_rfl (by omega) le_rfl
  · intro l hodd
    unfold padLastDup
    rw [if_pos (by omega)]
  · intro l heven
    unfold padLastDup
    rw [if_neg (by omega)]

/-- Witness for C9 at a two-leaf list and a three-element level. -/
theorem getMerkleRoot_spec_witness :
    (([txT1, txSelf] : List Tx) ≠ []) ∧
    getMerkleRoot (fun s => "H" ++ s) (fun tx => tx.id) [txT1, txSelf] =
      merkleCombine (fun s => "H" ++ s)
        ([txT1, txSelf].map (fun tx => "H" ++ tx.id)) ∧
    (2 ≤ (["x", "y", "z"] : List String).length) ∧
    merkleCombine (fun s => "H" ++ s) ["x", "y", "z"] =
      merkleCombine (fun s => "H" ++ s)
        (hashAdjacentPairs (fun s => "H" ++ s) (padLastDup ["x", "y", "z"])) :=
  ⟨by decide,
   (getMerkleRoot_spec (fun s => "H" ++ s) (fun tx => tx.id)).2.1 _ (by decide),
   by decide,
   (getMerkleRoot_spec (fun s => "H" ++ s) (fun tx => tx.id)).2.2.2.1 _ (by decide)⟩

/-! ### Hash identity, genesis duplication, reorg transaction loss, heights -/

theorem addBlock_accept_regular (H : Hasher) (s : NodeState) (b : Block)
    (hgen : b.isGenesis = false) (hacc : (addBlock H s b).1 = true) :
    s.seenMessages.contains (blockIdHash H b) = false ∧
    validateBlockTransactions s b.transactions = true ∧
    validateBlockStructure s b (calculateBlockHash H b) = true ∧
    (addBlock H s b).2 = applyConsensusRules (regularStage H s b) (blockIdHash H b) := by
  rcases addBlock_cases H s b with hc | ⟨hs, hc | hc⟩
  · rw [hc] at hacc
    simp at hacc
  · rw [hc.1] at hgen
    simp at hgen
  · exact ⟨hs, hc.2.1, hc.2.2.1, by rw [hc.2.2.2]⟩

theorem validateBlockStructure_pow (s : NodeState) (b : Block) (ch : String)
    (h : validateBlockStructure s b ch = true) : strStarts ch "0000" = true := by
  by_cases hp : strStarts ch "0000" = true
  · exact hp
  · rw [Bool.not_eq_true] at hp
    unfold validateBlockStructure at h
    rw [hp] at h
    simp at h

/-- C4 counterexample: `blkMismatch` declares hash `"deadbeef"` although
its recomputed hash is `"0000e1"`; `addBlock` accepts it anyway and stores
it under the declared hash. -/
theorem hashMismatch_accepted_counterexample :
    calculateBlockHash hashDemo blkMismatch = "0000e1" ∧
    blkMismatch.hash = "deadbeef" ∧
    calculateBlockHash hashDemo blkMismatch ≠ blkMismatch.hash ∧
    (addBlock hashDemo stateGenesis blkMismatch).1 = true ∧
    mapFind (addBlock hashDemo stateGenesis blkMismatch).2.blocks "deadbeef" =
      some blkMismatch := by decide

/-- C4 (amended): a mismatch between the declared and the recomputed hash
never causes rejection; an unseen block whose recomputed hash meets the
difficulty and whose transactions validate is accepted and stored under
its identity hash (the declared hash when non-empty). -/
theorem hashMismatch_tolerated (H : Hasher) (s : NodeState) (b : Block)
    (hgen : b.isGenesis = false)
    (hseen : (s.seenMessages.contains (blockIdHash H b)
        || s.seenMessages.contains (calculateBlockHash H b)) = false)
    (hpow : strStarts (calculateBlockHash H b) "0000" = true)
    (htx : validateBlockTransactions s b.transactions = true) :
    (addBlock H s b).1 = true ∧
    mapFind (addBlock H s b).2.blocks (blockIdHash H b) =
      some { b with hash := blockIdHash H b } := by
  have hstruct : validateBlockStructure s b (calculateBlockHash H b) = true := by
    unfold validateBlockStructure
    rw [hpow]
    simp
  have heq : addBlock H s b =
      (true, applyConsensusRules (regularStage H s b) (blockIdHash H b)) := by
    unfold addBlock
    rw [hseen, hgen, hstruct, htx]
    simp
  rw [heq]
  refine ⟨rfl, ?_⟩
  rw [consensus_blocks, regularStage_blocks]
  exact mapFind_mapSet_self _ _ _

/-- Witness for the amended C4: the mismatching block over the demo
genesis state. -/
theorem hashMismatch_tolerated_witness :
    blkMismatch.isGenesis = false ∧
    (stateGenesis.seenMessages.contains (blockIdHash hashDemo blkMismatch)
      || stateGenesis.seenMessages.contains (calculateBlockHash hashDemo blkMismatch)) =
        false ∧
    strStarts (calculateBlockHash hashDemo blkMismatch) "0000" = true ∧
    validateBlockTransactions stateGenesis blkMismatch.transactions = true ∧
    ((addBlock hashDemo stateGenesis blkMismatch).1 = true ∧
     mapFind (addBlock hashDemo stateGenesis blkMismatch).2.blocks
         (blockIdHash hashDemo blkMismatch) =
       some { blkMismatch with hash := blockIdHash hashDemo blkMismatch }) :=
  ⟨by decide, by decide, by decide, by decide,
   hashMismatch_tolerated hashDemo stateGenesis blkMismatch
     (by decide) (by decide) (by decide) (by decide)⟩

/-- C6 failing input: after the demo genesis (head `"0000a0"`, creator `A`
endowed 100), `addBlock` accepts the second genesis block `gen2` with a
distinct hash, moves the head to it and re-endows `A`; the spec's guard
`if no genesis exists` is missing on this path even though the
`genesisCreated` flag is set. -/
theorem duplicateGenesis_accepted :
    (gen2.isGenesis = true ∧
     (addBlock hashDemo initState gen2).1 = true ∧
     (addBlock hashDemo initState gen2).2.blockchainHead = some "0000b0" ∧
     mapFind (addBlock hashDemo initState gen2).2.blockHeights "0000b0" = some 0 ∧
     mapFind (addBlock hashDemo initState gen2).2.balances "A" = some 100) ∧
    (stateGenesis.genesisCreated = true ∧
     stateGenesis.blockchainHead = some "0000a0" ∧
     (addBlock hashDemo stateGenesis gen2).1 = true ∧
     (addBlock hashDemo stateGenesis gen2).2.blockchainHead = some "0000b0" ∧
     mapFind (addBlock hashDemo stateGenesis gen2).2.blockHeights "0000b0" = some 0 ∧
     mapFind (addBlock hashDemo stateGenesis gen2).2.balances "A" = some 100) := by
  decide

/-- C3 failing input: in `opsReorg` the fork `blkC`/`blkD` overtakes
`blkB1`; the rollback reverses `txT1`'s balance effect (`A` back to 90)
but does not restore `txT1` to the pending pool, which stays empty, so the
transaction of the abandoned branch is dropped. -/
theorem reorgDropsTransactions :
    (runOps hashDemo opsReorg).blockchainHead = some "0000d1" ∧
    getChainToBlock (runOps hashDemo opsReorg) "0000d1" =
      ["0000a0", "0000c1", "0000d1"] ∧
    mapFind (runOps hashDemo opsReorg).blocks "0000b1" =
      some { blkB1 with hash := "0000b1" } ∧
    mapFind (runOps hashDemo opsReorg).balances "A" = some 90 ∧
    mapFind (runOps hashDemo opsReorg).balances "B" = some 10 ∧
    (runOps hashDemo opsReorg).transactions = [] ∧
    mapFind (runOps hashDemo opsReorg).transactions "T1" = none := by
  decide

/-- C7 counterexample: `blkOrphan` arrives before its parent `blkParent`
and is assigned height 1; when the parent later arrives (also at height 1),
the orphan's height is never revised, so `heightOf[b] = heightOf[parent]+1`
fails although both blocks are stored. -/
theorem heightInvariant_orphan_counterexample :
    mapFind (runOps hashDemo opsOrphan).blocks "0000b1" =
      some { blkParent with hash := "0000b1" } ∧
    mapFind (runOps hashDemo opsOrphan).blocks "0000c1" =
      some { blkOrphan with hash := "0000c1" } ∧
    blkOrphan.previousHash = "0000b1" ∧
    blkOrphan.isGenesis = false ∧
    mapFind (runOps hashDemo opsOrphan).blockHeights "0000c1" = some 1 ∧
    mapFind (runOps hashDemo opsOrphan).blockHeights "0000b1" = some 1 ∧
    ((1 : Int) = 1 + 1 ↔ False) := by decide

/-- C7 (amended): when `addBlock` accepts a non-genesis block whose
parent height is recorded (as a natural, non-negative height) at insertion
time, the new block's height is the parent's height plus one — via the
ordinary branch for parents of height ≥ 1 and, coincidentally, via the
`|| -1` orphan branch (height 1) for parents at height 0.  The equality is
not maintained when the parent arrives later. -/
theorem heightAssignment_parent_known (H : Hasher) (s : NodeState) (b : Block) (ph : Int)
    (hgen : b.isGenesis = false)
    (hacc : (addBlock H s b).1 = true)
    (hph : mapFind s.blockHeights b.previousHash = some ph)
    (hph0 : 0 ≤ ph) :
    mapFind (addBlock H s b).2.blockHeights (blockIdHash H b) = some (ph + 1) := by
  obtain ⟨-, -, -, heq⟩ := addBlock_accept_regular H s b hgen hacc
  rw [heq, consensus_heights]
  have hts : (regularStage H s b).blockHeights =
      (heightStage (insertBlockStage s b (blockIdHash H b)) b
        (blockIdHash H b)).blockHeights := rfl
  rw [hts]
  by_cases h0 : ph = 0
  · have hpj : prevHeightJs (insertBlockStage s b (blockIdHash H b)) b = -1 := by
      show (match mapFind s.blockHeights b.previousHash with
            | none => -1
            | some v => if v = 0 then -1 else v) = -1
      rw [hph]
      simp [h0]
    unfold heightStage
    rw [hpj]
    simp only [if_pos rfl]
    show mapFind (mapSet s.blockHeights (blockIdHash H b) 1) (blockIdHash H b) =
      some (ph + 1)
    rw [mapFind_mapSet_self, h0]
    norm_num
  · have hpj : prevHeightJs (insertBlockStage s b (blockIdHash H b)) b = ph := by
      show (match mapFind s.blockHeights b.previousHash with
            | none => -1
            | some v => if v = 0 then -1 else v) = ph
      rw [hph]
      simp [h0]
    unfold heightStage
    rw [hpj]
    rw [if_neg (by omega : ¬ ph = (-1 : Int))]
    show mapFind (mapSet s.blockHeights (blockIdHash H b) (ph + 1)) (blockIdHash H b) =
      some (ph + 1)
    rw [mapFind_mapSet_self]

/-- Witness for the amended C7: `blkD` over the state holding genesis and
`blkC` (parent height 1) receives height 2. -/
theorem heightAssignment_parent_known_witness :
    blkD.isGenesis = false ∧
    (addBlock hashDemo stateGenC blkD).1 = true ∧
    mapFind stateGenC.blockHeights blkD.previousHash = some 1 ∧
    (0 : Int) ≤ 1 ∧
    mapFind (addBlock hashDemo stateGenC blkD).2.blockHeights
        (blockIdHash hashDemo blkD) = some (1 + 1) :=
  ⟨by decide, by decide, by decide, by decide,
   heightAssignment_parent_known hashDemo stateGenC blkD 1
     (by decide) (by decide) (by decide) (by decide)⟩

/-! ### Proof-of-work invariant -/

theorem powOk_step (H : Hasher) (op : Op) (s : NodeState)
    (hns : isSyncBlockOp op = false) (hp : PowOk H s) : PowOk H (applyOp H s op) := by
  cases op with
  | opAddBlock b =>
    show PowOk H (addBlock H s b).2
    rcases addBlock_cases H s b with hc | ⟨-, hc | hc⟩
    · rw [hc]
      exact hp
    · rw [hc.2]
      intro p hmem hng
      rw [genesisAccept_blocks] at hmem
      rcases mem_mapSet _ _ _ _ hmem with hm | hm
      · exact hp p hm hng
      · exfalso
        have hbg : b.isGenesis = false := by rw [hm] at hng; exact hng
        rw [hc.1] at hbg
        simp at hbg
    · obtain ⟨hgenf, htx, hstruct, heq⟩ := hc
      rw [heq]
      intro p hmem hng
      rw [consensus_blocks, regularStage_blocks] at hmem
      rcases mem_mapSet _ _ _ _ hmem with hm | hm
      · exact hp p hm hng
      · have hco : calculateBlockHash H { b with hash := blockIdHash H b } =
            calculateBlockHash H b := rfl
        rw [hm]
        show strStarts (calculateBlockHash H { b with hash := blockIdHash H b }) "0000" = true
        rw [hco]
        exact validateBlockStructure_pow s b _ hstruct
  | opAddTransaction tx =>
    show PowOk H (addTransaction s tx).2
    rcases addTransaction_state_cases s tx with hc | hc <;> rw [hc]
    · exact hp
    · intro p hmem hng
      exact hp p hmem hng
  | opCreateGenesis nid ts =>
    show PowOk H (createGenesisBlock H s nid ts).2
    rcases createGenesis_state_cases H s nid ts with ⟨hc, -⟩ | ⟨gb, hc, -, hgb, -⟩ <;>
      rw [hc]
    · exact hp
    · intro p hmem hng
      rcases mem_mapSet _ _ _ _ hmem with hm | hm
      · exact hp p hm hng
      · exfalso
        have hbg : gb.isGenesis = false := by rw [hm] at hng; exact hng
        rw [hgb] at hbg
        simp at hbg
  | opSyncBlock b => simp [isSyncBlockOp] at hns
  | opSyncTransaction tx =>
    show PowOk H (syncInsertTransaction s tx)
    rcases syncInsertTransaction_state_cases s tx with hc | hc <;> rw [hc]
    · exact hp
    · intro p hmem hng
      exact hp p hmem hng

theorem powOk_run (H : Hasher) :
    ∀ (ops : List Op) (s : NodeState), PowOk H s →
      (∀ op ∈ ops, isSyncBlockOp op = false) → PowOk H (ops.foldl (applyOp H) s)
  | [], _, hp, _ => hp
  | op :: rest, s, hp, hall =>
    powOk_run H rest _ (powOk_step H op s (hall op (List.mem_cons_self _ _)) hp)
      (fun o ho => hall o (List.mem_cons_of_mem _ ho))

/-- C5 counterexample: `syncInventoryWithPeers` stores a fetched block with
no validation, so a non-genesis block whose recomputed hash fails the
difficulty ends up in `blocksByHash`. -/
theorem powInvariant_sync_counterexample :
    mapFind (runOps hashBad [Op.opSyncBlock blkNoPow]).blocks "bbad" = some blkNoPow ∧
    blkNoPow.isGenesis = false ∧
    strStarts (calculateBlockHash hashBad blkNoPow) "0000" = false := by decide

/-- C5 (amended): along any execution that never uses the raw peer-sync
block insertion, every non-genesis block in `blocksByHash` has a recomputed
hash meeting the difficulty `'0000'`; the sync path performs no such check
and can violate the invariant. -/
theorem powInvariant_noSync (H : Hasher) (ops : List Op)
    (hns : ∀ op ∈ ops, isSyncBlockOp op = false)
    (h : String) (b : Block)
    (hb : mapFind (runOps H ops).blocks h = some b)
    (hgen : b.isGenesis = false) :
    strStarts (calculateBlockHash H b) "0000" = true := by
  have hinv : PowOk H (runOps H ops) :=
    powOk_run H ops initState (by intro p hmem _; simp [initState] at hmem) hns
  exact hinv (h, b) (mapFind_mem _ _ _ hb) hgen

/-- Witness for the amended C5: the stored copy of `blkC` in the demo
trace meets the difficulty. -/
theorem powInvariant_noSync_witness :
    (∀ op ∈ opsGenC, isSyncBlockOp op = false) ∧
    mapFind (runOps hashDemo opsGenC).blocks "0000c1" =
      some { blkC with hash := "0000c1" } ∧
    ({ blkC with hash := "0000c1" } : Block).isGenesis = false ∧
    strStarts (calculateBlockHash hashDemo { blkC with hash := "0000c1" }) "0000" = true :=
  ⟨by decide, by decide, by decide,
   powInvariant_noSync hashDemo opsGenC (by decide) "0000c1"
     { blkC with hash := "0000c1" } (by decide) (by decide)⟩

/-! ### Balance conservation -/

theorem selfSendFree_nil : SelfSendFree [] :=
  fun tx htx => absurd htx (List.not_mem_nil tx)

/-- Against empty balances, only an empty transaction list validates. -/
theorem validateBlockTxsFrom_nil (txs : List Tx)
    (h : validateBlockTxsFrom [] txs = true) : txs = [] := by
  cases txs with
  | nil => rfl
  | cons tx rest =>
    exfalso
    unfold validateBlockTxsFrom at h
    by_cases h1 : (tx.id = "" ∨ tx.sender = "" ∨ tx.receiver = "" ∨ tx.amount = 0 ∨
        tx.amount ≤ 0)
    · rw [if_pos h1] at h
      simp at h
    · rw [if_neg h1] at h
      push_neg at h1
      dsimp only at h
      have hsb : (mapFind ([] : List (String × Int)) tx.sender).getD 0 < tx.amount := by
        show ((none : Option Int)).getD 0 < tx.amount
        simp
        omega
      rw [if_pos hsb] at h
      simp at h

theorem rollbackBlocks_emptyTxs (blocks : List (String × Block))
    (hall : ∀ p ∈ blocks, (p.2).transactions = ([] : List Tx)) (hashes : List String) :
    ∀ bal, rollbackBlocks blocks bal hashes = bal := by
  induction hashes with
  | nil => intro bal; rfl
  | cons h rest ih =>
    intro bal
    have hstep : rollbackBlocks blocks bal (h :: rest) =
        rollbackBlocks blocks
          (match mapFind blocks h with
           | some blk => blk.transactions.foldl rollbackTx bal
           | none => bal) rest := by
      simp [rollbackBlocks]
    rw [hstep, ih]
    cases hfind : mapFind blocks h with
    | none => rfl
    | some blk =>
      have he : blk.transactions = [] := hall (h, blk) (mapFind_mem _ _ _ hfind)
      show List.foldl rollbackTx bal blk.transactions = bal
      rw [he]
      rfl

theorem applyBlocks_emptyTxs (blocks : List (String × Block))
    (hall : ∀ p ∈ blocks, (p.2).transactions = ([] : List Tx)) (hashes : List String) :
    ∀ bal pend, applyBlocks blocks bal pend hashes = (bal, pend) := by
  induction hashes with
  | nil => intro bal pend; rfl
  | cons h rest ih =>
    intro bal pend
    have hstep : applyBlocks blocks bal pend (h :: rest) =
        applyBlocks blocks
          (match mapFind blocks h with
           | some blk => processBlockTxs bal pend blk.transactions
           | none => (bal, pend)).1
          (match mapFind blocks h with
           | some blk => processBlockTxs bal pend blk.transactions
           | none => (bal, pend)).2 rest := by
      simp [applyBlocks]
    rw [hstep, ih]
    cases hfind : mapFind blocks h with
    | none => rfl
    | some blk =>
      have he : blk.transactions = [] := hall (h, blk) (mapFind_mem _ _ _ hfind)
      show ((processBlockTxs bal pend blk.transactions).1,
        (processBlockTxs bal pend blk.transactions).2) = (bal, pend)
      rw [he]
      rfl

theorem reorg_balances_emptyTxs (s : NodeState) (a b : String)
    (hall : ∀ p ∈ s.blocks, (p.2).transactions = ([] : List Tx)) :
    (handleChainReorganization s a b).balances = s.balances := by
  rw [reorg_balances]
  rw [applyBlocks_emptyTxs _ hall, rollbackBlocks_emptyTxs _ hall]

theorem reorg_balances_sum (s : NodeState) (a b : String)
    (hfree : ∀ p ∈ s.blocks, SelfSendFree (p.2).transactions) :
    mapSumInt (handleChainReorganization s a b).balances = mapSumInt s.balances := by
  rw [reorg_balances]
  rw [applyBlocks_fst_sum, rollbackBlocks_sum _ hfree]

theorem balInv_step (H : Hasher) (op : Op) (s : NodeState) (n : Nat)
    (hinv : BalInv s n) (hwf : OpWellFormed op)
    (hbound : n + opGenCount H s op ≤ 1) :
    BalInv (applyOp H s op) (n + opGenCount H s op) := by
  obtain ⟨hfree, hzero, hone, hcreated⟩ := hinv
  cases op with
  | opAddTransaction tx =>
    show BalInv (addTransaction s tx).2 (n + opGenCount H s (Op.opAddTransaction tx))
    have hcount : opGenCount H s (Op.opAddTransaction tx) = 0 := rfl
    rw [hcount, Nat.add_zero]
    rcases addTransaction_state_cases s tx with hc | hc <;> rw [hc]
    · exact ⟨hfree, hzero, hone, hcreated⟩
    · exact ⟨hfree, hzero, hone, hcreated⟩
  | opSyncBlock b => exact hwf.elim
  | opSyncTransaction tx => exact hwf.elim
  | opCreateGenesis nid ts =>
    show BalInv (createGenesisBlock H s nid ts).2 (n + opGenCount H s (Op.opCreateGenesis nid ts))
    rcases createGenesis_state_cases H s nid ts with ⟨hc, hnone⟩ |
        ⟨gb, hc, hgbt, hgbg, hsome⟩
    · have hcount : opGenCount H s (Op.opCreateGenesis nid ts) = 0 := by
        simp [opGenCount, hnone]
      rw [hcount, Nat.add_zero, hc]
      exact ⟨hfree, hzero, hone, hcreated⟩
    · have hcount : opGenCount H s (Op.opCreateGenesis nid ts) = 1 := by
        simp [opGenCount, hsome]
      rw [hcount] at hbound ⊢
      have hn0 : n = 0 := by omega
      subst hn0
      obtain ⟨hbal0, -⟩ := hzero rfl
      rw [hc]
      refine ⟨?_, ?_, ?_, ?_⟩
      · intro p hmem
        rcases mem_mapSet _ _ _ _ hmem with hm | hm
        · exact hfree p hm
        · have : (p.2).transactions = gb.transactions := by rw [hm]
          rw [this, hgbt]
          exact selfSendFree_nil
      · intro h01
        exact absurd h01 (by omega)
      · intro _
        show mapSumInt (mapSet s.balances nid 100) = 100
        rw [hbal0]
        simp [mapSet, mapSumInt]
      · intro _
        rfl
  | opAddBlock b =>
    show BalInv (addBlock H s b).2 (n + opGenCount H s (Op.opAddBlock b))
    obtain ⟨hwf1, hwf2⟩ := hwf
    rcases addBlock_cases H s b with hc | ⟨hseen, hc | hc⟩
    · have h1 : (addBlock H s b).1 = false := by rw [hc]
      have hcount : opGenCount H s (Op.opAddBlock b) = 0 := by
        simp [opGenCount, h1]
      rw [hcount, Nat.add_zero]
      have h2 : (addBlock H s b).2 = s := by rw [hc]
      rw [h2]
      exact ⟨hfree, hzero, hone, hcreated⟩
    · obtain ⟨hbg, heq⟩ := hc
      have h1 : (addBlock H s b).1 = true := by rw [heq]
      have hcount : opGenCount H s (Op.opAddBlock b) = 1 := by
        simp [opGenCount, h1, hbg]
      rw [hcount] at hbound ⊢
      have hn0 : n = 0 := by omega
      subst hn0
      obtain ⟨hbal0, -⟩ := hzero rfl
      have h2 : (addBlock H s b).2 = genesisAccept s b (blockIdHash H b) := by rw [heq]
      rw [h2]
      refine ⟨?_, ?_, ?_, ?_⟩
      · intro p hmem
        rw [genesisAccept_blocks] at hmem
        rcases mem_mapSet _ _ _ _ hmem with hm | hm
        · exact hfree p hm
        · have : (p.2).transactions = b.transactions := by rw [hm]
          rw [this]
          exact hwf2
      · intro h01
        exact absurd h01 (by omega)
      · intro _
        rw [genesisAccept_balances, if_pos (hwf1 hbg), hbal0]
        simp [mapSet, mapSumInt]
      · intro _
        rw [genesisAccept_genesisCreated]
    · obtain ⟨hbg, htx, hstruct, heq⟩ := hc
      have hcount : opGenCount H s (Op.opAddBlock b) = 0 := by
        simp [opGenCount, hbg]
      rw [hcount] at hbound ⊢
      rw [Nat.add_zero]
      have h2 : (addBlock H s b).2 =
          applyConsensusRules (regularStage H s b) (blockIdHash H b) := by rw [heq]
      rw [h2]
      have hblocks : (applyConsensusRules (regularStage H s b) (blockIdHash H b)).blocks =
          mapSet s.blocks (blockIdHash H b) { b with hash := blockIdHash H b } := by
        rw [consensus_blocks, regularStage_blocks]
      have hfree' : ∀ p ∈ mapSet s.blocks (blockIdHash H b)
          { b with hash := blockIdHash H b }, SelfSendFree (p.2).transactions := by
        intro p hmem
        rcases mem_mapSet _ _ _ _ hmem with hm | hm
        · exact hfree p hm
        · have : (p.2).transactions = b.transactions := by rw [hm]
          rw [this]
          exact hwf2
      have hfreeT : ∀ p ∈ (regularStage H s b).blocks, SelfSendFree (p.2).transactions := by
        rw [regularStage_blocks]
        exact hfree'
      by_cases hn : n = 0
      · subst hn
        obtain ⟨hbal0, hblk0⟩ := hzero rfl
        have htxe : b.transactions = [] := by
          have hv : validateBlockTxsFrom s.balances b.transactions = true := htx
          rw [hbal0] at hv
          exact validateBlockTxsFrom_nil _ hv
        have htbal : (regularStage H s b).balances = s.balances := by
          rw [regularStage_balances, htxe]
          rfl
        have hblk0' : ∀ p ∈ mapSet s.blocks (blockIdHash H b)
            { b with hash := blockIdHash H b }, (p.2).transactions = ([] : List Tx) := by
          intro p hmem
          rcases mem_mapSet _ _ _ _ hmem with hm | hm
          · exact hblk0 p hm
          · have : (p.2).transactions = b.transactions := by rw [hm]
            rw [this]
            exact htxe
        have hblkT : ∀ p ∈ (regularStage H s b).blocks,
            (p.2).transactions = ([] : List Tx) := by
          rw [regularStage_blocks]
          exact hblk0'
        have hbal' : (applyConsensusRules (regularStage H s b) (blockIdHash H b)).balances =
            ([] : List (String × Int)) := by
          rcases consensus_balances_cases (regularStage H s b) (blockIdHash H b) with
              hcb | ⟨oh, hcb⟩
          · rw [hcb, htbal, hbal0]
          · rw [hcb, reorg_balances_emptyTxs _ _ _ hblkT, htbal, hbal0]
        refine ⟨?_, ?_, ?_, ?_⟩
        · rw [hblocks]
          exact hfree'
        · intro _
          refine ⟨hbal', ?_⟩
          rw [hblocks]
          exact hblk0'
        · intro h01
          exact absurd h01 (by omega)
        · intro h10
          exact absurd h10 (by omega)
      · have hn1 : n = 1 := by omega
        subst hn1
        have hsum : mapSumInt s.balances = 100 := hone rfl
        have htbal : mapSumInt (regularStage H s b).balances = 100 := by
          rw [regularStage_balances, processBlockTxs_fst_sum, hsum]
        have hbal' : mapSumInt
            (applyConsensusRules (regularStage H s b) (blockIdHash H b)).balances = 100 := by
          rcases consensus_balances_cases (regularStage H s b) (blockIdHash H b) with
              hcb | ⟨oh, hcb⟩
          · rw [hcb]
            exact htbal
          · rw [hcb, reorg_balances_sum _ _ _ hfreeT]
            exact htbal
        refine ⟨?_, ?_, ?_, ?_⟩
        · rw [hblocks]
          exact hfree'
        · intro h10
          exact absurd h10 (by omega)
        · intro _
          exact hbal'
        · intro _
          rw [consensus_genesisCreated, regularStage_genesisCreated]
          exact hcreated (by omega)

theorem balInv_run (H : Hasher) (ops : List Op) :
    ∀ (s : NodeState) (n : Nat), BalInv s n → (∀ op ∈ ops, OpWellFormed op) →
      n + genCountFrom H s ops ≤ 1 →
      BalInv (ops.foldl (applyOp H) s) (n + genCountFrom H s ops) := by
  induction ops with
  | nil =>
    intro s n hinv _ _
    simpa [genCountFrom] using hinv
  | cons op rest ih =>
    intro s n hinv hall hbound
    simp only [genCountFrom] at hbound ⊢
    simp only [List.foldl_cons]
    have hstep := balInv_step H op s n hinv (hall op (List.mem_cons_self _ _)) (by omega)
    have hres := ih (applyOp H s op) (n + opGenCount H s op) hstep
      (fun o ho => hall o (List.mem_cons_of_mem _ ho)) (by omega)
    have harr : n + (opGenCount H s op + genCountFrom H (applyOp H s op) rest) =
        (n + opGenCount H s op) + genCountFrom H (applyOp H s op) rest := by omega
    rw [harr]
    exact hres

/-- C2 counterexample: a second accepted genesis (sum stays 100 with two
genesis blocks counted) and a reorged-away self-transfer (sum drops to 95
with a single genesis) both violate `sum(balances) = 100 × #genesis`. -/
theorem balanceConservation_counterexample :
    (genCount hashDemo opsTwoGenesis = 2 ∧
     mapSumInt (runOps hashDemo opsTwoGenesis).balances = 100 ∧
     mapSumInt (runOps hashDemo opsTwoGenesis).balances ≠ 100 * (2 : Int)) ∧
    (genCount hashDemo opsSelfSend = 1 ∧
     mapSumInt (runOps hashDemo opsSelfSend).balances = 95 ∧
     mapSumInt (runOps hashDemo opsSelfSend).balances ≠ 100 * (1 : Int)) := by
  decide

/-- C2 (amended): along any execution that uses only the local entry
points, accepts at most one genesis block, gives every genesis block a
creator, and submits no block containing an effective self-transfer, the
sum of all balances equals `100 ×` the number of accepted genesis blocks
after every operation. -/
theorem balanceConservation_wellFormed (H : Hasher) (ops : List Op)
    (hwf : ∀ op ∈ ops, OpWellFormed op)
    (hg : genCount H ops ≤ 1) :
    mapSumInt (runOps H ops).balances = 100 * (genCount H ops : Int) := by
  have hinit : BalInv initState 0 := by
    refine ⟨?_, ?_, ?_, ?_⟩
    · intro p hmem
      simp [initState] at hmem
    · intro _
      exact ⟨rfl, by intro p hmem; simp [initState] at hmem⟩
    · intro h
      exact absurd h (by omega)
    · intro h
      exact absurd h (by omega)
  have hrun := balInv_run H ops initState 0 hinit hwf
    (by simpa [genCount] using hg)
  have hco : 0 + genCountFrom H initState ops = genCount H ops := by
    simp [genCount]
  rw [hco] at hrun
  obtain ⟨-, hz, ho, -⟩ := hrun
  have hcases : genCount H ops = 0 ∨ genCount H ops = 1 := by omega
  rcases hcases with hgc | hgc
  · have hb : (runOps H ops).balances = [] := (hz hgc).1
    rw [hgc, hb]
    simp [mapSumInt]
  · have hsum : mapSumInt (runOps H ops).balances = 100 := ho hgc
    rw [hsum, hgc]
    simp

/-- Witness for the amended C2: the reorg trace `opsReorg` is well formed,
accepts one genesis, and conserves the endowment. -/
theorem balanceConservation_wellFormed_witness :
    (∀ op ∈ opsReorg, OpWellFormed op) ∧
    genCount hashDemo opsReorg ≤ 1 ∧
    mapSumInt (runOps hashDemo opsReorg).balances =
      100 * (genCount hashDemo opsReorg : Int) :=
  ⟨by
    intro op hop
    simp only [opsReorg, List.mem_cons, List.not_mem_nil, or_false] at hop
    rcases hop with h | h | h | h | h <;> subst h <;>
      simp [OpWellFormed, SelfSendFree, blkB1, blkC, blkD, txT1],
   by decide,
   balanceConservation_wellFormed hashDemo opsReorg
     (by
       intro op hop
       simp only [opsReorg, List.mem_cons, List.not_mem_nil, or_false] at hop
       rcases hop with h | h | h | h | h <;> subst h <;>
         simp [OpWellFormed, SelfSendFree, blkB1, blkC, blkD, txT1])
     (by decide)⟩

end Ledger
